import Mathlib

/-!
Verification of the MAD3PG learner of this repository
(`Agents/MAD4PG/learning.py` and `Agents/MAD4PG/networks.py`).

The per-step tensor computations of `MAD3PGLearner._step` are embedded
shallowly.  Batched tensors whose numeric content is irrelevant to the claims
(per-agent actions and encoded observations) are represented by the symbolic
type `Val`, which records exactly how each tensor was produced: which batch
field it was sliced from, which network was applied, and where
`tf.stop_gradient` cut the differentiation path.  Differentiable dependency on
network parameters is then the computable set `valDeps`.  Numeric claims
(losses, gradient averaging, clipping, the categorical projection) are
embedded over `ℚ` or `ℝ`.  Exceptions raised by the Python code (the missing
`_edge_policy_networks` attribute, shape mismatches) are modelled with
`Except`.
-/

/-- Network parameter groups owned by the learner, one per agent index:
`_policy_networks[i]`, `_target_policy_networks[i]`, `_observation_networks[i]`,
`_target_observation_networks[i]`, `_critic_networks[i]`. -/
inductive Param where
  | onlinePolicy (i : ℕ)
  | targetPolicy (i : ℕ)
  | onlineObs (i : ℕ)
  | targetObs (i : ℕ)
  | onlineCritic (i : ℕ)
deriving DecidableEq

/-- Symbolic tensors of `MAD3PGLearner._step` (learning.py lines 186-239).
`obs i` is `transitions.observation[:, i, :]`, `nextObs i` is
`transitions.next_observation[:, i, :]`; the `...App` constructors apply the
corresponding network, and `stopGrad` is `tf.stop_gradient`. -/
inductive Val where
  | obs (i : ℕ)
  | nextObs (i : ℕ)
  | stopGrad (v : Val)
  | onlineObsApp (i : ℕ) (v : Val)
  | targetObsApp (i : ℕ) (v : Val)
  | onlinePolicyApp (i : ℕ) (v : Val)
  | targetPolicyApp (i : ℕ) (v : Val)
deriving DecidableEq

/-- Parameter groups a symbolic tensor depends on differentiably.  Applying a
network adds its parameters to the dependency set; `tf.stop_gradient` cuts
every dependency. -/
def valDeps : Val → Finset Param
  | .obs _ => ∅
  | .nextObs _ => ∅
  | .stopGrad _ => ∅
  | .onlineObsApp i v => insert (Param.onlineObs i) (valDeps v)
  | .targetObsApp i v => insert (Param.targetObs i) (valDeps v)
  | .onlinePolicyApp i v => insert (Param.onlinePolicy i) (valDeps v)
  | .targetPolicyApp i v => insert (Param.targetPolicy i) (valDeps v)

/-- Slice `i` of `edge_a_t` (learning.py lines 188-196): the target policy of
agent `i` applied to the stop-gradiented target-encoded
`transitions.observation[:, i, :]`.  Note the source reads `observation`, not
`next_observation`, at line 190. -/
def edge_a_t_slice (i : ℕ) : Val :=
  Val.targetPolicyApp i (Val.stopGrad (Val.targetObsApp i (Val.obs i)))

/-- The joint target action `edge_a_t` as the code computes it, as the list of
its `edge_number` per-agent slices. -/
def edge_a_t_code (n : ℕ) : List Val := (List.range n).map edge_a_t_slice

/-- Modelled from the spec (section 4.2 Joint Action Assembler): the joint
target action is the concatenation in agent-index order of
`target_policy[i](encoder[i](next_obs[i]))` with the encoder output detached.
This definition follows the spec's words and is compared against
`edge_a_t_code`, which follows the source. -/
def joint_target_action_spec (n : ℕ) : List Val :=
  (List.range n).map (fun i =>
    Val.targetPolicyApp i (Val.stopGrad (Val.targetObsApp i (Val.nextObs i))))

/-- The tensor bound to `o_t` in the per-agent loop body (learning.py lines
203-206): the target observation encoder applied to
`transitions.next_observation[:, k, :]`, then stop-gradiented. -/
def o_t_detached (k : ℕ) : Val :=
  Val.stopGrad (Val.targetObsApp k (Val.nextObs k))

/-- Step-time failures of `_step` / `_replicated_step`:
`attrEdgePolicyNetworks` is the AttributeError raised by reading the never
assigned `self._edge_policy_networks` (learning.py line 226), `shapeMismatch`
a batch whose dimensions contradict `edge_number`/`edge_action_size`. -/
inductive StepErr where
  | attrEdgePolicyNetworks
  | shapeMismatch
deriving DecidableEq

/-- The inner loop of the counterfactual-action assembly (learning.py lines
222-226) for agent `k`, iterating over the list of agent indices `i` and
concatenating onto the accumulated `dpg_a_t`.  The branch `i ≠ 0 ∧ i = k`
reads `self._edge_policy_networks`, an attribute no code ever assigns, so it
raises an AttributeError. -/
def dpg_loop (k : ℕ) : List ℕ → List Val → Except StepErr (List Val)
  | [], acc => Except.ok acc
  | i :: rest, acc =>
    if i ≠ 0 ∧ i ≠ k then dpg_loop k rest (acc ++ [edge_a_t_slice i])
    else if i ≠ 0 ∧ i = k then Except.error StepErr.attrEdgePolicyNetworks
    else dpg_loop k rest acc

/-- The counterfactual joint action `dpg_a_t` assembled for agent `k`
(learning.py lines 217-226): for `k = 0` it starts from
`self._policy_networks[0](o_t)` with `o_t` the detached target-encoded next
observation of agent 0, otherwise from slice 0 of `edge_a_t`; then the loop
`dpg_loop` runs over all agent indices. -/
def dpg_a_t_code (n k : ℕ) : Except StepErr (List Val) :=
  let init : List Val :=
    if k = 0 then [Val.onlinePolicyApp 0 (o_t_detached 0)]
    else [edge_a_t_slice 0]
  dpg_loop k (List.range n) init

/-- The counterfactual joint action as claim C1 states it: identical to the
joint target action except that index `k`'s slice is replaced by agent `k`'s
online policy's action computed from `observation[:, k, :]` via the online
encoder.  This definition follows the claim's words and is compared against
`dpg_a_t_code`, which follows the source. -/
def dpg_a_t_claimed (n k : ℕ) : List Val :=
  (List.range n).map (fun i =>
    if i = k then Val.onlinePolicyApp k (Val.onlineObsApp k (Val.obs k))
    else edge_a_t_slice i)

/-- Union of the differentiable dependency sets of a joint action's slices. -/
def jointDeps (action : List Val) : Finset Param :=
  action.foldr (fun v s => valDeps v ∪ s) ∅

/-- Differentiable dependency footprint of `losses.dpg(dpg_q_t, edge_a_t, tape,
...)` (learning.py lines 233-238).  Modelled from the acme library semantics:
`dpg` computes `dqda = tape.gradient(q_max, a_max)` and returns
`0.5 * sum(square(stop_gradient(dqda + a_max) - a_max))`, so the only
differentiable path into the returned loss is through its action argument
`a_max`, which the source instantiates with `edge_a_t`. -/
def dpg_loss_deps (a_max : List Val) : Finset Param := jointDeps a_max

/-- Agent `k`'s policy loss in `_step`: the counterfactual action must be
assembled first (it feeds `dpg_z_t`), after which the loss's differentiable
dependency set is that of `edge_a_t` (the action argument of `losses.dpg`). -/
def policy_loss_deps_code (n k : ℕ) : Except StepErr (Finset Param) :=
  (dpg_a_t_code n k).map (fun _ => dpg_loss_deps (edge_a_t_code n))

/-- The per-agent loop of `_step` (learning.py lines 198-239) as far as the
counterfactual assemblies go: the counterfactual action of every agent in
index order, short-circuiting at the first exception.  Gradients are computed
and applied only after this loop finishes (lines 246-275), so an error here
occurs before any gradient is computed or applied. -/
def step_counterfactuals (n : ℕ) : Except StepErr (List (List Val)) :=
  (List.range n).foldlM (fun acc k => (dpg_a_t_code n k).map (fun a => acc ++ [a])) []

lemma dpg_loop_cons_zero (k : ℕ) (rest : List ℕ) (acc : List Val) :
    dpg_loop k (0 :: rest) acc = dpg_loop k rest acc := by
  have h1 : ¬((0 : ℕ) ≠ 0 ∧ (0 : ℕ) ≠ k) := fun h => h.1 rfl
  have h2 : ¬((0 : ℕ) ≠ 0 ∧ (0 : ℕ) = k) := fun h => h.1 rfl
  simp only [dpg_loop]
  rw [if_neg h1, if_neg h2]

lemma dpg_loop_no_zero (l : List ℕ) (acc : List Val) (hl : ∀ i ∈ l, i ≠ 0) :
    dpg_loop 0 l acc = Except.ok (acc ++ l.map edge_a_t_slice) := by
  induction l generalizing acc with
  | nil => simp [dpg_loop]
  | cons i rest ih =>
    have hi : i ≠ 0 := hl i (List.mem_cons_self i rest)
    simp only [dpg_loop]
    rw [if_pos ⟨hi, hi⟩, ih _ (fun j hj => hl j (List.mem_cons_of_mem i hj))]
    simp

lemma dpg_loop_mem_err (k : ℕ) (hk : k ≠ 0) (l : List ℕ) :
    ∀ acc : List Val, k ∈ l → dpg_loop k l acc = Except.error StepErr.attrEdgePolicyNetworks := by
  induction l with
  | nil => intro acc hmem; cases hmem
  | cons i rest ih =>
    intro acc hmem
    by_cases hik : i = k
    · subst hik
      simp [dpg_loop, hk]
    · have hkr : k ∈ rest := by
        rcases List.mem_cons.mp hmem with h | h
        · exact absurd h.symm hik
        · exact h
      by_cases hi0 : i = 0
      · subst hi0
        rw [dpg_loop_cons_zero]
        exact ih acc hkr
      · simp only [dpg_loop]
        rw [if_pos ⟨hi0, hik⟩]
        exact ih _ hkr

lemma dpg_a_t_code_zero (n : ℕ) (hn : 1 ≤ n) :
    dpg_a_t_code n 0 =
      Except.ok (Val.onlinePolicyApp 0 (o_t_detached 0) ::
        (List.range (n - 1)).map (fun j => edge_a_t_slice (j + 1))) := by
  obtain ⟨m, rfl⟩ : ∃ m, n = m + 1 := ⟨n - 1, (Nat.succ_pred_eq_of_pos hn).symm⟩
  unfold dpg_a_t_code
  rw [List.range_succ_eq_map]
  rw [if_pos rfl, dpg_loop_cons_zero]
  rw [dpg_loop_no_zero _ _ (fun j hj => by
    obtain ⟨i, _, rfl⟩ := List.mem_map.mp hj
    exact Nat.succ_ne_zero i)]
  simp [List.map_map, Function.comp_def, Nat.succ_eq_add_one]

lemma dpg_a_t_code_err (n k : ℕ) (h1 : 1 ≤ k) (h2 : k < n) :
    dpg_a_t_code n k = Except.error StepErr.attrEdgePolicyNetworks := by
  unfold dpg_a_t_code
  exact dpg_loop_mem_err k (Nat.one_le_iff_ne_zero.mp h1) _ _ (List.mem_range.mpr h2)

lemma mem_jointDeps (p : Param) (l : List Val) :
    p ∈ jointDeps l ↔ ∃ v ∈ l, p ∈ valDeps v := by
  induction l with
  | nil => simp [jointDeps]
  | cons v rest ih =>
    simp only [jointDeps, List.foldr_cons] at ih ⊢
    simp only [Finset.mem_union, ih, List.mem_cons]
    constructor
    · rintro (h | ⟨w, hw, hp⟩)
      · exact ⟨v, Or.inl rfl, h⟩
      · exact ⟨w, Or.inr hw, hp⟩
    · rintro ⟨w, hw | hw, hp⟩
      · subst hw; exact Or.inl hp
      · exact Or.inr ⟨w, hw, hp⟩

lemma valDeps_edge_slice (j : ℕ) :
    valDeps (edge_a_t_slice j) = {Param.targetPolicy j} := by
  simp [edge_a_t_slice, valDeps]

lemma onlinePolicy_not_mem_edge_deps (n i : ℕ) :
    Param.onlinePolicy i ∉ jointDeps (edge_a_t_code n) := by
  rw [mem_jointDeps]
  rintro ⟨v, hv, hp⟩
  obtain ⟨j, _, rfl⟩ := List.mem_map.mp hv
  rw [valDeps_edge_slice] at hp
  simp at hp

/-- Claim C1, counterexample: already for a single agent (`edge_number = 1`,
`k = 0`) the counterfactual joint action the code assembles is agent 0's
online policy applied to the detached target-encoded next observation, not
the online policy's action computed from `observation[:, 0, :]` via the online
encoder as the claim states; and for `edge_number = 2`, agent 1's
counterfactual assembly does not produce an action at all but raises an
AttributeError. -/
theorem c1_counterfactual_counterexample :
    dpg_a_t_code 1 0 = Except.ok [Val.onlinePolicyApp 0 (o_t_detached 0)]
  ∧ [Val.onlinePolicyApp 0 (o_t_detached 0)] ≠ dpg_a_t_claimed 1 0
  ∧ dpg_a_t_code 2 1 = Except.error StepErr.attrEdgePolicyNetworks := by
  refine ⟨rfl, by decide, rfl⟩

/-- Claim C1 (amended): for agent 0 the counterfactual joint action is
identical to the joint target action `edge_a_t` except that slice 0 is
replaced by agent 0's online policy applied to the detached target-encoded
next observation `next_observation[:, 0, :]` (not to `observation[:, 0, :]`
via the online encoder); slice 0 is the only slice depending differentiably on
an online policy's parameters (agent 0's), every other slice depending only on
the corresponding target policy's parameters.  For every agent `k ≥ 1` the
assembly reads the never-assigned attribute `_edge_policy_networks` and fails.
Moreover `losses.dpg` is differentiated with respect to `edge_a_t` rather
than the counterfactual action, and `edge_a_t` depends on no online policy's
parameters, so the policy-loss gradient with respect to every agent's online
policy parameters is None: the claimed isolation property does not hold. -/
theorem c1_counterfactual_amended (n : ℕ) (hn : 1 ≤ n) :
    dpg_a_t_code n 0 =
      Except.ok (Val.onlinePolicyApp 0 (o_t_detached 0) ::
        (List.range (n - 1)).map (fun j => edge_a_t_slice (j + 1)))
  ∧ valDeps (Val.onlinePolicyApp 0 (o_t_detached 0)) = {Param.onlinePolicy 0}
  ∧ (∀ j, valDeps (edge_a_t_slice j) = {Param.targetPolicy j})
  ∧ (∀ k, 1 ≤ k → k < n → dpg_a_t_code n k = Except.error StepErr.attrEdgePolicyNetworks)
  ∧ policy_loss_deps_code n 0 = Except.ok (dpg_loss_deps (edge_a_t_code n))
  ∧ (∀ i, Param.onlinePolicy i ∉ dpg_loss_deps (edge_a_t_code n)) := by
  refine ⟨dpg_a_t_code_zero n hn, by simp [o_t_detached, valDeps], valDeps_edge_slice,
    fun k h1 h2 => dpg_a_t_code_err n k h1 h2, ?_, fun i => onlinePolicy_not_mem_edge_deps n i⟩
  unfold policy_loss_deps_code
  rw [dpg_a_t_code_zero n hn]
  rfl

/-- Claim C1 (amended), witness at `edge_number = 2`. -/
theorem c1_counterfactual_amended_witness :
    dpg_a_t_code 2 0 =
      Except.ok [Val.onlinePolicyApp 0 (o_t_detached 0), edge_a_t_slice 1]
  ∧ dpg_a_t_code 2 1 = Except.error StepErr.attrEdgePolicyNetworks
  ∧ Param.onlinePolicy 0 ∉ dpg_loss_deps (edge_a_t_code 2) := by
  obtain ⟨h1, _, _, h4, _, h6⟩ := c1_counterfactual_amended 2 (by decide)
  exact ⟨h1, h4 1 (by decide) (by decide), h6 0⟩

/-- Claim C2 (code bug): as written, the code assembles every slice of the
joint target action from `transitions.observation[:, i, :]` (learning.py line
190), not from `transitions.next_observation[:, i, :]` as the claim, the
spec, the variable names `o_t`/`a_t` (used for next-observation values
everywhere else in `_step`), and the D4PG bootstrap all require.  The
detachment part of the claim does hold: the encoder output is stop-gradiented
before the target policy is applied. -/
theorem c2_joint_target_action_uses_current_observation :
    edge_a_t_code 1 = [Val.targetPolicyApp 0 (Val.stopGrad (Val.targetObsApp 0 (Val.obs 0)))]
  ∧ edge_a_t_code 1 ≠ joint_target_action_spec 1 := ⟨rfl, by decide⟩

/-- Claim C9: the attribute `_edge_policy_networks` read at learning.py line
226 is never assigned, so for `edge_number ≥ 2` the per-agent loss loop fails
with an attribute-lookup error while assembling agent 1's counterfactual
action, after agent 0's succeeded and before any gradient is computed or
applied (gradients are taken only after the loop, lines 246-260); with
`edge_number = 1` the loop never reaches that branch. -/
theorem c9_missing_edge_policy_attribute (n : ℕ) (hn : 2 ≤ n) :
    step_counterfactuals n = Except.error StepErr.attrEdgePolicyNetworks
  ∧ (∃ L, dpg_a_t_code n 0 = Except.ok L)
  ∧ dpg_a_t_code n 1 = Except.error StepErr.attrEdgePolicyNetworks
  ∧ (∀ k, 1 ≤ k → k < n → dpg_a_t_code n k = Except.error StepErr.attrEdgePolicyNetworks)
  ∧ step_counterfactuals 1 = Except.ok [[Val.onlinePolicyApp 0 (o_t_detached 0)]] := by
  have h0 : dpg_a_t_code n 0 =
      Except.ok (Val.onlinePolicyApp 0 (o_t_detached 0) ::
        (List.range (n - 1)).map (fun j => edge_a_t_slice (j + 1))) :=
    dpg_a_t_code_zero n (by omega)
  have h1 : dpg_a_t_code n 1 = Except.error StepErr.attrEdgePolicyNetworks :=
    dpg_a_t_code_err n 1 le_rfl (by omega)
  refine ⟨?_, ⟨_, h0⟩, h1, fun k hk1 hk2 => dpg_a_t_code_err n k hk1 hk2, rfl⟩
  obtain ⟨m, rfl⟩ : ∃ m, n = m + 2 := ⟨n - 2, by omega⟩
  unfold step_counterfactuals
  rw [List.range_succ_eq_map, List.range_succ_eq_map, List.map_cons]
  rw [List.foldlM_cons, h0]
  show Except.bind _ _ = _
  simp only [Except.map, Except.bind]
  rw [List.foldlM_cons, h1]
  rfl

/-- Claim C9, witness at `edge_number = 2`. -/
theorem c9_missing_edge_policy_attribute_witness :
    step_counterfactuals 2 = Except.error StepErr.attrEdgePolicyNetworks
  ∧ step_counterfactuals 1 = Except.ok [[Val.onlinePolicyApp 0 (o_t_detached 0)]] := by
  obtain ⟨h1, _, _, _, h5⟩ := c9_missing_edge_policy_attribute 2 (by decide)
  exact ⟨h1, h5⟩

/-- One elementwise assignment pass `for src, dest in zip(online, target):
dest.assign(src)` (learning.py lines 305-306): every destination variable
paired with a source variable by `zip` is overwritten with the source value;
any unpaired destination variables keep their values. -/
def assign_vars (src dest : List ℚ) : List ℚ :=
  (src.zip dest).map Prod.fst ++ dest.drop src.length

/-- The target-update loop of `_replicated_step` (learning.py lines 303-306):
the per-agent online and target variable tuples are zipped and assigned
elementwise. -/
def assign_all (online target : List (List ℚ)) : List (List ℚ) :=
  (online.zip target).map (fun p => assign_vars p.1 p.2) ++ target.drop online.length

/-- Learner state across steps: the step counter `_num_steps`, the per-agent
flattened online and target variables (observation ++ critic ++ policy, as
built at learning.py lines 286-300), and abstract per-agent optimizer
states. -/
structure LearnerState where
  num_steps : ℕ
  online : List (List ℚ)
  target : List (List ℚ)
  policy_opt : List ℚ
  critic_opt : List ℚ
deriving DecidableEq

/-- Lines 284-307 of `_replicated_step`: if `num_steps mod
target_update_period = 0`, hard-copy every online variable into the
corresponding target variable, otherwise leave the targets alone; then
increment the step counter.  The decision reads the counter value prior to
the increment. -/
def sync_and_increment (P : ℕ) (s : LearnerState) : LearnerState :=
  { s with
    target := if s.num_steps % P = 0 then assign_all s.online s.target else s.target,
    num_steps := s.num_steps + 1 }

lemma assign_vars_eq (src dest : List ℚ) (h : src.length = dest.length) :
    assign_vars src dest = src := by
  unfold assign_vars
  rw [List.map_fst_zip _ _ (le_of_eq h), h, List.drop_length, List.append_nil]

lemma assign_all_eq (online target : List (List ℚ))
    (h : List.Forall₂ (fun u v : List ℚ => u.length = v.length) online target) :
    assign_all online target = online := by
  induction h with
  | nil => rfl
  | @cons a b l ll hab htail ih =>
    show assign_all (a :: l) (b :: ll) = a :: l
    unfold assign_all
    simp only [List.zip_cons_cons, List.map_cons, List.length_cons, List.drop_succ_cons,
      List.cons_append]
    rw [assign_vars_eq _ _ hab]
    unfold assign_all at ih
    rw [ih]

/-- Claim C3: target synchronization in `_replicated_step` happens iff the
step counter prior to its increment is divisible by the update period, it is
a hard copy of every online variable (not an exponential moving average), on
other steps the targets are unchanged, and the counter is incremented exactly
once, after the synchronization decision; everything else is untouched. -/
theorem c3_target_sync_hard_copy_iff (P : ℕ) (_hP : 0 < P) (s : LearnerState)
    (hshape : List.Forall₂ (fun u v : List ℚ => u.length = v.length) s.online s.target) :
    ((sync_and_increment P s).target =
      if s.num_steps % P = 0 then s.online else s.target)
  ∧ (s.num_steps % P ≠ 0 → (sync_and_increment P s).target = s.target)
  ∧ (sync_and_increment P s).num_steps = s.num_steps + 1
  ∧ (sync_and_increment P s).online = s.online
  ∧ (sync_and_increment P s).policy_opt = s.policy_opt
  ∧ (sync_and_increment P s).critic_opt = s.critic_opt := by
  have htgt : (sync_and_increment P s).target =
      if s.num_steps % P = 0 then assign_all s.online s.target else s.target := rfl
  refine ⟨?_, fun h => ?_, rfl, rfl, rfl, rfl⟩
  · rw [htgt]
    by_cases h : s.num_steps % P = 0
    · rw [if_pos h, if_pos h, assign_all_eq _ _ hshape]
    · rw [if_neg h, if_neg h]
  · rw [htgt, if_neg h]

/-- Claim C3, witness: with period 2, a step at counter 0 copies the online
variables into the targets, a step at counter 1 leaves the targets unchanged,
and each step increments the counter once. -/
theorem c3_target_sync_hard_copy_iff_witness :
    (sync_and_increment 2 ⟨0, [[1, 2], [3]], [[0, 0], [0]], [], []⟩).target = [[1, 2], [3]]
  ∧ (sync_and_increment 2 ⟨1, [[1, 2], [3]], [[9, 9], [9]], [], []⟩).target = [[9, 9], [9]]
  ∧ (sync_and_increment 2 ⟨0, [[1, 2], [3]], [[0, 0], [0]], [], []⟩).num_steps = 1 := by
  have hsh1 : List.Forall₂ (fun u v : List ℚ => u.length = v.length)
      [[1, 2], [3]] [[0, 0], [0]] :=
    List.Forall₂.cons rfl (List.Forall₂.cons rfl List.Forall₂.nil)
  have hsh2 : List.Forall₂ (fun u v : List ℚ => u.length = v.length)
      [[1, 2], [3]] [[9, 9], [9]] :=
    List.Forall₂.cons rfl (List.Forall₂.cons rfl List.Forall₂.nil)
  obtain ⟨h1, _, h3, _⟩ :=
    c3_target_sync_hard_copy_iff 2 (by norm_num) ⟨0, [[1, 2], [3]], [[0, 0], [0]], [], []⟩ hsh1
  obtain ⟨_, h2, _⟩ :=
    c3_target_sync_hard_copy_iff 2 (by norm_num) ⟨1, [[1, 2], [3]], [[9, 9], [9]], [], []⟩ hsh2
  refine ⟨by rw [h1]; norm_num, h2 (by norm_num), h3⟩

/-- A sampled transition batch, reduced to the dimensions the shape contract
of `_step` checks: the batch size, the agent dimension of the observation
tensor, and the flattened action length. -/
structure Batch where
  batch_size : ℕ
  obs_agents : ℕ
  action_size : ℕ
deriving DecidableEq

/-- Shape contract of `_step`: `transitions.observation[:, i, :]` requires the
agent dimension to match `edge_number`, and the reshapes of the action tensor
to `[batch_size, edge_number, edge_action_size]` require the action length to
be their product. -/
def batch_shape_ok (edge_number edge_action_size : ℕ) (b : Batch) : Bool :=
  b.obs_agents == edge_number && b.action_size == edge_number * edge_action_size

/-- A successful pass through `_step`'s loss/gradient/apply phases.  The
numeric content of the optimizer update is irrelevant to claim C7 and is
abstracted as a fixed change of the online parameters and optimizer states. -/
def step_apply (s : LearnerState) : LearnerState :=
  { s with
    online := s.online.map (fun v => v.map (fun x => x + 1)),
    policy_opt := s.policy_opt.map (fun x => x + 1),
    critic_opt := s.critic_opt.map (fun x => x + 1) }

/-- `_replicated_step` (learning.py lines 283-315) under sequential
exception semantics: the target-sync decision and the counter increment
execute first (lines 284-307); only then is the batch pulled and `_step` run,
so a shape error raised there propagates while the mutations already made
persist, and none of the loss/gradient/apply phase takes effect. -/
def replicated_step (P n Da : ℕ) (s : LearnerState) (b : Batch) :
    LearnerState × Except StepErr Unit :=
  let s1 := sync_and_increment P s
  if batch_shape_ok n Da b then (step_apply s1, Except.ok ())
  else (s1, Except.error StepErr.shapeMismatch)

/-- Claim C7, counterexample: a learner configured for 2 agents receiving a
1-agent batch at counter 0 with period 1 aborts with the shape error, but the
step counter has been incremented and the target parameters have been
overwritten, contradicting the claim that all state is left as it was before
the step began. -/
theorem c7_step_abort_counterexample :
    (replicated_step 1 2 1 ⟨0, [[1]], [[0]], [0], [0]⟩ ⟨4, 1, 1⟩).2
        = Except.error StepErr.shapeMismatch
  ∧ (replicated_step 1 2 1 ⟨0, [[1]], [[0]], [0], [0]⟩ ⟨4, 1, 1⟩).1.num_steps = 1
  ∧ (replicated_step 1 2 1 ⟨0, [[1]], [[0]], [0], [0]⟩ ⟨4, 1, 1⟩).1.target ≠ [[0]] := by
  exact ⟨rfl, rfl, by decide⟩

/-- Claim C7 (amended): on a batch shape error the step aborts with the error
propagated, and no online parameter or optimizer state is updated; however
the target-synchronization decision and the step-counter increment precede
the batch processing, so the counter is incremented once and, when the
pre-increment counter is divisible by the period, the target parameters have
already been overwritten with the online values. -/
theorem c7_step_abort_amended (P n Da : ℕ) (s : LearnerState) (b : Batch)
    (hb : batch_shape_ok n Da b = false) :
    (replicated_step P n Da s b).2 = Except.error StepErr.shapeMismatch
  ∧ (replicated_step P n Da s b).1.online = s.online
  ∧ (replicated_step P n Da s b).1.policy_opt = s.policy_opt
  ∧ (replicated_step P n Da s b).1.critic_opt = s.critic_opt
  ∧ (replicated_step P n Da s b).1.num_steps = s.num_steps + 1
  ∧ (replicated_step P n Da s b).1.target =
      (if s.num_steps % P = 0 then assign_all s.online s.target else s.target) := by
  unfold replicated_step
  rw [hb]
  exact ⟨rfl, rfl, rfl, rfl, rfl, rfl⟩

/-- Claim C7 (amended), witness: concrete aborted step with counter 5 and
period 3 (no sync due), showing the error, the untouched online/optimizer
state, and the incremented counter. -/
theorem c7_step_abort_amended_witness :
    (replicated_step 3 2 1 ⟨5, [[2]], [[7]], [3], [4]⟩ ⟨4, 1, 1⟩).2
        = Except.error StepErr.shapeMismatch
  ∧ (replicated_step 3 2 1 ⟨5, [[2]], [[7]], [3], [4]⟩ ⟨4, 1, 1⟩).1.online = [[2]]
  ∧ (replicated_step 3 2 1 ⟨5, [[2]], [[7]], [3], [4]⟩ ⟨4, 1, 1⟩).1.num_steps = 6 := by
  obtain ⟨h1, h2, _, _, h5, _⟩ :=
    c7_step_abort_amended 3 2 1 ⟨5, [[2]], [[7]], [3], [4]⟩ ⟨4, 1, 1⟩ (by decide)
  exact ⟨h1, h2, h5⟩

/-- Mean of a list of per-agent losses, as `tf.reduce_mean(tf.stack(...))`
computes it. -/
def listMean (l : List ℚ) : ℚ := l.sum / l.length

/-- The cross-agent mean critic and policy losses (learning.py lines
242-243).  `_step` computes these into local variables and then never uses
them. -/
def step_losses_summary (critic_losses policy_losses : List ℚ) : ℚ × ℚ :=
  (listMean critic_losses, listMean policy_losses)

/-- The metrics mapping `_step` returns (learning.py lines 277-281). -/
structure StepFetches where
  policy_losses : List ℚ
  critic_losses : List ℚ
deriving DecidableEq

/-- The return value of `_step`: the per-agent loss lists themselves, not the
cross-agent means. -/
def step_fetches (critic_losses policy_losses : List ℚ) : StepFetches :=
  { policy_losses := policy_losses, critic_losses := critic_losses }

/-- Per-agent gradient application (learning.py lines 271-275): agent `i`'s
optimizer state is updated from agent `i`'s gradients only; `applyOpt`
abstracts one `optimizer.apply_gradients` call. -/
def apply_gradients_model (applyOpt : ℚ → ℚ → ℚ) (opts grads : List ℚ) : List ℚ :=
  (opts.zip grads).map (fun p => applyOpt p.1 p.2)

lemma getElem?_zip_set_ne {α β : Type} (l : List α) (l' : List β) (i j : ℕ) (g : β)
    (hij : i ≠ j) : (l.zip (l'.set j g))[i]? = (l.zip l')[i]? := by
  induction l generalizing l' i j with
  | nil => simp
  | cons a l ih =>
    cases l' with
    | nil => simp
    | cons b l' =>
      cases j with
      | zero =>
        cases i with
        | zero => exact absurd rfl hij
        | succ i => simp [List.zip_cons_cons]
      | succ j =>
        cases i with
        | zero => simp [List.zip_cons_cons]
        | succ i =>
          simp only [List.set_cons_succ, List.zip_cons_cons, List.getElem?_cons_succ]
          exact ih l' i j (fun h => hij (by rw [h]))

/-- Claim C4, counterexample: with two agents and distinct per-agent losses,
the metrics `_step` returns are the two-element per-agent lists, not the
cross-agent scalar means the claim describes. -/
theorem c4_reported_losses_counterexample :
    step_fetches [0, 1] [2, 3] ≠
      { policy_losses := [listMean [2, 3]], critic_losses := [listMean [0, 1]] }
  ∧ (step_fetches [0, 1] [2, 3]).critic_losses = [0, 1] := by
  constructor
  · intro h
    have hlen := congrArg (fun f => f.critic_losses.length) h
    simp [step_fetches] at hlen
  · rfl

/-- Claim C4 (amended): `_step` computes the cross-agent mean critic and
policy losses but discards them; the metrics it returns are the per-agent
lists of critic and policy losses.  Gradients are computed and applied per
agent independently: agent `i`'s updated optimizer state does not change when
agent `j ≠ i`'s gradient changes. -/
theorem c4_reported_losses_amended (critic_losses policy_losses : List ℚ)
    (applyOpt : ℚ → ℚ → ℚ) (opts grads : List ℚ) :
    (step_fetches critic_losses policy_losses).critic_losses = critic_losses
  ∧ (step_fetches critic_losses policy_losses).policy_losses = policy_losses
  ∧ step_losses_summary critic_losses policy_losses =
      (critic_losses.sum / critic_losses.length, policy_losses.sum / policy_losses.length)
  ∧ (∀ i j g, i ≠ j →
      (apply_gradients_model applyOpt opts (grads.set j g))[i]? =
        (apply_gradients_model applyOpt opts grads)[i]?) := by
  refine ⟨rfl, rfl, rfl, fun i j g hij => ?_⟩
  unfold apply_gradients_model
  rw [List.getElem?_map, List.getElem?_map, getElem?_zip_set_ne _ _ _ _ _ hij]

/-- Claim C4 (amended), witness at concrete losses, optimizer states and
gradients. -/
theorem c4_reported_losses_amended_witness :
    (step_fetches [0, 1] [2, 3]).critic_losses = [0, 1]
  ∧ (apply_gradients_model (fun s g => s + g) [0, 0] ([5, 7].set 1 9))[0]? =
      (apply_gradients_model (fun s g => s + g) [0, 0] [5, 7])[0]? := by
  obtain ⟨h1, _, _, h4⟩ :=
    c4_reported_losses_amended [0, 1] [2, 3] (fun s g => s + g) [0, 0] [5, 7]
  exact ⟨h1, h4 0 1 9 (by decide)⟩

/-- The scatter phase of `average_gradients_across_replicas` (learning.py
lines 402-404): `results = [None] * len(gradients)`, then `results[ii] =
result` for every original-index/reduced-value pair. -/
def scatter_results (n : ℕ) (idxVals : List (ℕ × ℚ)) : List (Option ℚ) :=
  idxVals.foldl (fun results p => results.set p.1 (some p.2)) (List.replicate n none)

/-- `original_indices` of `average_gradients_across_replicas` (learning.py
line 398): the positions of the non-None gradient entries, in order. -/
def orig_indices (gradients : List (Option ℚ)) : List ℕ :=
  (gradients.enum.filter (fun p => p.2.isSome)).map Prod.fst

/-- `average_gradients_across_replicas` (learning.py lines 378-406): drop
the None entries (`gradients_without_nones`, line 397: a gradient is None
when its variable did not take part in the loss), remember their original
positions (line 398), all-reduce the compacted list (lines 400-401), and
scatter the reduced values back onto the original positions (lines 402-404).
`allReduce` abstracts `replica_context.all_reduce('mean', ...)`. -/
def average_gradients_across_replicas (allReduce : List ℚ → List ℚ)
    (gradients : List (Option ℚ)) : List (Option ℚ) :=
  scatter_results gradients.length
    ((orig_indices gradients).zip (allReduce (gradients.filterMap id)))

/-- Reference form of the scatter phase, structured for induction: walk the
original gradient list, consuming one reduced value per non-None entry. -/
def scatter_ref : List (Option ℚ) → List ℚ → List (Option ℚ)
  | [], _ => []
  | none :: g, vs => none :: scatter_ref g vs
  | some _ :: g, [] => none :: scatter_ref g []
  | some _ :: g, v :: vs => some v :: scatter_ref g vs

/-- Number of non-None entries among the first `i` entries of `g`: the
position a defined entry at index `i` occupies in the compacted list. -/
def some_rank (g : List (Option ℚ)) (i : ℕ) : ℕ := ((g.take i).filterMap id).length

/-- The gradient value of replica `h` at variable position `i` (0 for a None
entry). -/
def replica_val (h : List (Option ℚ)) (i : ℕ) : ℚ := (h.getD i none).getD 0

/-- The collective mean all-reduce over the compacted gradient lists of all
replicas in `G`: position `j` of the result is the mean over the replicas of
position `j` of their compacted lists.  The list argument is used only for
its length: the collective operation requires all replicas to pass
structurally congruent tensors. -/
def all_reduce_mean (G : List (List (Option ℚ))) (l : List ℚ) : List ℚ :=
  (List.range l.length).map
    (fun j => (G.map (fun h => (h.filterMap id).getD j 0)).sum / (G.length : ℚ))

lemma scatter_fold_shift (ps : List (ℕ × ℚ)) (x : Option ℚ) (L : List (Option ℚ)) :
    (ps.map (Prod.map (· + 1) id)).foldl (fun r q => r.set q.1 (some q.2)) (x :: L)
      = x :: ps.foldl (fun r q => r.set q.1 (some q.2)) L := by
  induction ps generalizing L with
  | nil => rfl
  | cons p ps ih =>
    obtain ⟨i, v⟩ := p
    simp only [List.map_cons, List.foldl_cons, Prod.map_fst, Prod.map_snd, id_eq,
      List.set_cons_succ]
    exact ih _

lemma orig_indices_cons_none (g : List (Option ℚ)) :
    orig_indices (none :: g) = (orig_indices g).map (· + 1) := by
  unfold orig_indices
  rw [List.enum_cons', List.filter_cons]
  simp only [Option.isSome_none, Bool.false_eq_true, if_false, List.filter_map,
    List.map_map]
  apply List.map_congr_left
  intro p _
  rfl

lemma orig_indices_cons_some (a : ℚ) (g : List (Option ℚ)) :
    orig_indices (some a :: g) = 0 :: (orig_indices g).map (· + 1) := by
  unfold orig_indices
  rw [List.enum_cons', List.filter_cons]
  simp only [Option.isSome_some, if_true, List.filter_map, List.map_map, List.map_cons]
  refine congrArg (0 :: ·) ?_
  apply List.map_congr_left
  intro p _
  rfl

lemma scatter_ref_nil (g : List (Option ℚ)) :
    scatter_ref g [] = List.replicate g.length none := by
  induction g with
  | nil => rfl
  | cons x g ih => cases x <;> simp [scatter_ref, ih, List.replicate_succ]

lemma avg_eq_scatter_ref (f : List ℚ → List ℚ) (g : List (Option ℚ)) :
    average_gradients_across_replicas f g = scatter_ref g (f (g.filterMap id)) := by
  unfold average_gradients_across_replicas
  generalize f (g.filterMap id) = vs
  induction g generalizing vs with
  | nil => rfl
  | cons x g ih =>
    cases x with
    | none =>
      rw [orig_indices_cons_none]
      show scatter_results (g.length + 1)
          (((orig_indices g).map (· + 1)).zip vs) = scatter_ref (none :: g) vs
      unfold scatter_results
      rw [List.replicate_succ, List.zip_map_left, scatter_fold_shift]
      show (none : Option ℚ) :: scatter_results g.length ((orig_indices g).zip vs) = _
      rw [ih]
      simp [scatter_ref]
    | some a =>
      rw [orig_indices_cons_some]
      cases vs with
      | nil =>
        rw [List.zip_nil_right]
        show List.replicate (g.length + 1) (none : Option ℚ) = scatter_ref (some a :: g) []
        rw [scatter_ref_nil]
        simp [List.replicate_succ]
      | cons v vs =>
        rw [List.zip_cons_cons]
        unfold scatter_results
        simp only [List.length_cons, List.foldl_cons, List.replicate_succ, List.set_cons_zero]
        rw [List.zip_map_left, scatter_fold_shift]
        show (some v : Option ℚ) :: scatter_results g.length ((orig_indices g).zip vs) = _
        rw [ih]
        simp [scatter_ref]

lemma scatter_ref_length (g : List (Option ℚ)) (vs : List ℚ) :
    (scatter_ref g vs).length = g.length := by
  induction g generalizing vs with
  | nil => rfl
  | cons x g ih =>
    cases x with
    | none => simp [scatter_ref, ih]
    | some a => cases vs <;> simp [scatter_ref, ih]

lemma scatter_ref_none (g : List (Option ℚ)) (vs : List ℚ) (i : ℕ)
    (h : g[i]? = some none) : (scatter_ref g vs)[i]? = some none := by
  induction g generalizing vs i with
  | nil => simp at h
  | cons x g ih =>
    cases i with
    | zero =>
      simp only [List.getElem?_cons_zero, Option.some_inj] at h
      subst h
      simp [scatter_ref]
    | succ i =>
      simp only [List.getElem?_cons_succ] at h
      cases x with
      | none => simpa [scatter_ref] using ih vs i h
      | some a =>
        cases vs with
        | nil => simpa [scatter_ref] using ih [] i h
        | cons v vs => simpa [scatter_ref] using ih vs i h

lemma some_rank_cons_none (g : List (Option ℚ)) (i : ℕ) :
    some_rank (none :: g) (i + 1) = some_rank g i := by
  simp [some_rank, List.take_succ_cons]

lemma some_rank_cons_some (b : ℚ) (g : List (Option ℚ)) (i : ℕ) :
    some_rank (some b :: g) (i + 1) = some_rank g i + 1 := by
  simp [some_rank, List.take_succ_cons]

lemma scatter_ref_some (g : List (Option ℚ)) (vs : List ℚ) (i : ℕ) (a : ℚ)
    (hg : g[i]? = some (some a)) (hrank : some_rank g i < vs.length) :
    (scatter_ref g vs)[i]? = some (some (vs.getD (some_rank g i) 0)) := by
  induction g generalizing vs i with
  | nil => simp at hg
  | cons x g ih =>
    cases i with
    | zero =>
      simp only [List.getElem?_cons_zero, Option.some_inj] at hg
      subst hg
      cases vs with
      | nil => simp [some_rank] at hrank
      | cons v vs => simp [scatter_ref, some_rank]
    | succ i =>
      simp only [List.getElem?_cons_succ] at hg
      cases x with
      | none =>
        rw [some_rank_cons_none] at hrank ⊢
        simpa [scatter_ref] using ih vs i hg hrank
      | some b =>
        rw [some_rank_cons_some] at hrank ⊢
        cases vs with
        | nil => simp at hrank
        | cons v vs =>
          simp only [List.length_cons, Nat.add_lt_add_iff_right] at hrank
          simpa [scatter_ref, List.getD_cons_succ] using ih vs i hg hrank

lemma some_rank_lt (g : List (Option ℚ)) (i : ℕ) (a : ℚ)
    (hg : g[i]? = some (some a)) : some_rank g i < (g.filterMap id).length := by
  induction g generalizing i with
  | nil => simp at hg
  | cons x g ih =>
    cases i with
    | zero =>
      simp only [List.getElem?_cons_zero, Option.some_inj] at hg
      subst hg
      simp [some_rank]
    | succ i =>
      simp only [List.getElem?_cons_succ] at hg
      cases x with
      | none =>
        rw [some_rank_cons_none]
        simpa using ih i hg
      | some b =>
        rw [some_rank_cons_some]
        have hlt := ih i hg
        show some_rank g i + 1 < (b :: g.filterMap id).length
        simp only [List.length_cons]
        omega

lemma pattern_compact_getD (h g : List (Option ℚ))
    (hpat : List.Forall₂ (fun a b : Option ℚ => a.isSome = b.isSome) h g) :
    ∀ (i : ℕ) (a : ℚ), g[i]? = some (some a) →
      (h.filterMap id).getD (some_rank g i) 0 = replica_val h i := by
  induction hpat with
  | nil => intro i a hg; simp at hg
  | @cons x y h g hxy htail ih =>
    intro i a hg
    cases i with
    | zero =>
      simp only [List.getElem?_cons_zero, Option.some_inj] at hg
      subst hg
      simp only [Option.isSome_some] at hxy
      obtain ⟨c, rfl⟩ := Option.isSome_iff_exists.mp hxy
      rfl
    | succ i =>
      simp only [List.getElem?_cons_succ] at hg
      cases y with
      | none =>
        have hx : x = none := by
          cases x with
          | none => rfl
          | some c => simp at hxy
        subst hx
        rw [some_rank_cons_none]
        simpa [replica_val] using ih i a hg
      | some b =>
        simp only [Option.isSome_some] at hxy
        obtain ⟨c, rfl⟩ := Option.isSome_iff_exists.mp hxy
        rw [some_rank_cons_some]
        simpa [replica_val, List.getD_cons_succ] using ih i a hg

lemma all_reduce_mean_getD (G : List (List (Option ℚ))) (l : List ℚ) (j : ℕ)
    (hj : j < l.length) :
    (all_reduce_mean G l).getD j 0 =
      (G.map (fun h => (h.filterMap id).getD j 0)).sum / (G.length : ℚ) := by
  unfold all_reduce_mean
  rw [List.getD_eq_getElem?_getD, List.getElem?_map, List.getElem?_range hj]
  rfl

/-- Claim C5: for every family `G` of per-replica gradient lists with
congruent None patterns (a None marks a variable that did not take part in
the loss, identically across replicas), the reduction of a replica's list
has the same length, keeps every None entry None, replaces every defined
entry by the mean of that entry's values across all replicas, and maps an
all-None input to an all-None output. -/
theorem c5_gradient_reduction_cross_replica_mean (G : List (List (Option ℚ)))
    (g : List (Option ℚ)) (_hg : g ∈ G)
    (hpat : ∀ h ∈ G, List.Forall₂ (fun a b : Option ℚ => a.isSome = b.isSome) h g) :
    (average_gradients_across_replicas (all_reduce_mean G) g).length = g.length
  ∧ (∀ i : ℕ, g[i]? = some none →
      (average_gradients_across_replicas (all_reduce_mean G) g)[i]? = some none)
  ∧ (∀ (i : ℕ) (a : ℚ), g[i]? = some (some a) →
      (average_gradients_across_replicas (all_reduce_mean G) g)[i]? =
        some (some ((G.map (fun h => replica_val h i)).sum / (G.length : ℚ))))
  ∧ ((∀ x ∈ g, x = none) →
      average_gradients_across_replicas (all_reduce_mean G) g =
        List.replicate g.length none) := by
  rw [avg_eq_scatter_ref]
  refine ⟨scatter_ref_length _ _, fun i h => scatter_ref_none _ _ i h,
    fun i a ha => ?_, fun hnone => ?_⟩
  · have hrank := some_rank_lt g i a ha
    have hlen : (all_reduce_mean G (g.filterMap id)).length = (g.filterMap id).length := by
      simp [all_reduce_mean]
    rw [scatter_ref_some g _ i a ha (by rw [hlen]; exact hrank)]
    rw [all_reduce_mean_getD G _ _ hrank]
    have hmaps : G.map (fun h => (h.filterMap id).getD (some_rank g i) 0)
        = G.map (fun h => replica_val h i) := by
      apply List.map_congr_left
      intro h hh
      exact pattern_compact_getD h g (hpat h hh) i a ha
    rw [hmaps]
  · have hnil : g.filterMap id = [] :=
      List.filterMap_eq_nil_iff.mpr (fun x hx => by simpa using hnone x hx)
    rw [hnil]
    have hred : all_reduce_mean G [] = [] := rfl
    rw [hred, scatter_ref_nil]

/-- Claim C5, witness: two replicas `[some 1, none, some 2]` and
`[some 3, none, some 6]`; the reduced list keeps the None, and the defined
entries become the cross-replica means 2 and 4. -/
theorem c5_gradient_reduction_cross_replica_mean_witness :
    (average_gradients_across_replicas
        (all_reduce_mean [[some 1, none, some 2], [some 3, none, some 6]])
        [some 1, none, some 2])[0]? = some (some 2)
  ∧ (average_gradients_across_replicas
        (all_reduce_mean [[some 1, none, some 2], [some 3, none, some 6]])
        [some 1, none, some 2])[1]? = some none
  ∧ (average_gradients_across_replicas
        (all_reduce_mean [[some 1, none, some 2], [some 3, none, some 6]])
        [some 1, none, some 2])[2]? = some (some 4) := by
  have hpat : ∀ h ∈ [[some (1 : ℚ), none, some 2], [some 3, none, some 6]],
      List.Forall₂ (fun a b : Option ℚ => a.isSome = b.isSome) h [some 1, none, some 2] := by
    intro h hh
    rcases List.mem_cons.mp hh with rfl | hh
    · exact List.Forall₂.cons rfl (List.Forall₂.cons rfl
        (List.Forall₂.cons rfl List.Forall₂.nil))
    rcases List.mem_cons.mp hh with rfl | hh
    · exact List.Forall₂.cons rfl (List.Forall₂.cons rfl
        (List.Forall₂.cons rfl List.Forall₂.nil))
    · cases hh
  obtain ⟨_, h2, h3, _⟩ := c5_gradient_reduction_cross_replica_mean
    [[some 1, none, some 2], [some 3, none, some 6]] [some 1, none, some 2]
    (List.mem_cons_self _ _) hpat
  refine ⟨?_, h2 1 rfl, ?_⟩
  · have := h3 0 1 rfl
    rw [this]
    norm_num [replica_val]
  · have := h3 2 2 rfl
    rw [this]
    norm_num [replica_val]

/-- Global (Euclidean) norm of a gradient list, as `tf.linalg.global_norm`
computes it: the square root of the sum of squares of all entries. -/
noncomputable def globalNorm (gs : List ℝ) : ℝ :=
  Real.sqrt (gs.map (fun g => g ^ 2)).sum

/-- `tf.clip_by_global_norm(t_list, clip_norm)` on one gradient list,
modelled from the TensorFlow semantics: every entry is scaled by
`clip_norm / max(global_norm, clip_norm)`. -/
noncomputable def clip_by_global_norm (gs : List ℝ) (clip_norm : ℝ) : List ℝ :=
  gs.map (fun g => g * (clip_norm / max (globalNorm gs) clip_norm))

/-- Lines 265-268 of `_step`: each (already cross-replica-averaged) per-agent
policy or critic gradient list is clipped by global norm at threshold 40 when
`_clipping` is set, and left untouched otherwise. -/
noncomputable def maybe_clip_gradients (clipping : Bool) (gs : List ℝ) : List ℝ :=
  if clipping then clip_by_global_norm gs 40 else gs

lemma globalNorm_scale (gs : List ℝ) (c : ℝ) :
    globalNorm (gs.map (fun g => g * c)) = |c| * globalNorm gs := by
  unfold globalNorm
  rw [List.map_map]
  have hcomp : ((fun g : ℝ => g ^ 2) ∘ fun g : ℝ => g * c) = fun g : ℝ => c ^ 2 * g ^ 2 := by
    funext g
    simp [Function.comp]
    ring
  rw [hcomp, List.sum_map_mul_left, Real.sqrt_mul (sq_nonneg c), Real.sqrt_sq_eq_abs]

/-- Claim C6: with clipping enabled, a gradient list whose global norm
exceeds 40 is rescaled to global norm exactly 40, while a list at or below 40
passes through unchanged; with clipping disabled no transformation is
applied. -/
theorem c6_global_norm_clipping (gs : List ℝ) :
    (40 < globalNorm gs → globalNorm (maybe_clip_gradients true gs) = 40)
  ∧ (globalNorm gs ≤ 40 → maybe_clip_gradients true gs = gs)
  ∧ maybe_clip_gradients false gs = gs := by
  refine ⟨fun h => ?_, fun h => ?_, rfl⟩
  · have hpos : (0 : ℝ) < globalNorm gs := lt_trans (by norm_num) h
    have hmax : max (globalNorm gs) 40 = globalNorm gs := max_eq_left h.le
    unfold maybe_clip_gradients clip_by_global_norm
    rw [if_pos rfl, hmax, globalNorm_scale,
      abs_of_pos (div_pos (by norm_num) hpos), div_mul_cancel₀ _ (ne_of_gt hpos)]
  · have hmax : max (globalNorm gs) 40 = 40 := max_eq_right h
    unfold maybe_clip_gradients clip_by_global_norm
    rw [if_pos rfl, hmax]
    norm_num

lemma globalNorm_pair (a b r : ℝ) (hr : 0 ≤ r) (h : a ^ 2 + b ^ 2 = r ^ 2) :
    globalNorm [a, b] = r := by
  unfold globalNorm
  simp only [List.map_cons, List.map_nil, List.sum_cons, List.sum_nil, add_zero]
  rw [h, Real.sqrt_sq hr]

/-- Claim C6, witness: the list `[30, 40]` has global norm 50 > 40 and is
rescaled to global norm 40; the list `[3, 4]` has global norm 5 ≤ 40 and is
unchanged; with clipping disabled `[30, 40]` is unchanged. -/
theorem c6_global_norm_clipping_witness :
    globalNorm (maybe_clip_gradients true [30, 40]) = 40
  ∧ maybe_clip_gradients true [3, 4] = [3, 4]
  ∧ maybe_clip_gradients false [30, 40] = [30, 40] := by
  have h1 : (40 : ℝ) < globalNorm [30, 40] := by
    rw [globalNorm_pair 30 40 50 (by norm_num) (by norm_num)]
    norm_num
  have h2 : globalNorm [(3 : ℝ), 4] ≤ 40 := by
    rw [globalNorm_pair 3 4 5 (by norm_num) (by norm_num)]
    norm_num
  exact ⟨(c6_global_norm_clipping [30, 40]).1 h1,
    (c6_global_norm_clipping [3, 4]).2.1 h2,
    (c6_global_norm_clipping [30, 40]).2.2⟩

/-- Clamp `x` to the interval `[lo, hi]`. -/
def clampQ (lo hi x : ℚ) : ℚ := max lo (min x hi)

/-- Modelled from the spec (section 4.1 Distribution Projection; the routine
itself is `acme.tf.losses.categorical`, outside this repository's source):
atom `j` of the fixed categorical support of `n` atoms spread evenly over
`[vmin, vmax]`. -/
def atom_support (vmin vmax : ℚ) (n j : ℕ) : ℚ :=
  vmin + j * ((vmax - vmin) / ((n : ℚ) - 1))

/-- Modelled from the spec: the position, in atom-index units, of the
affinely transformed support atom `j`, clamped to `[vmin, vmax]` before any
mass is distributed: `(clamp(r + gd·z_j) - vmin) / Δ`. -/
def atom_pos (vmin vmax : ℚ) (n : ℕ) (r gd : ℚ) (j : ℕ) : ℚ :=
  (clampQ vmin vmax (r + gd * atom_support vmin vmax n j) - vmin)
    / ((vmax - vmin) / ((n : ℚ) - 1))

/-- Modelled from the spec: the fraction of a source atom's mass, sitting at
clamped position `b`, given to destination atom `i`: split between the two
neighbouring atoms `⌊b⌋` and `⌊b⌋ + 1` proportionally to proximity. -/
def proj_weight (b : ℚ) (i : ℕ) : ℚ :=
  let l := (⌊b⌋).toNat
  if i = l then 1 - (b - l) else if i = l + 1 then b - l else 0

/-- Modelled from the spec: atom `i` of the projected target distribution for
bootstrap distribution `p` (atom probabilities), reward `r` and total
discount `gd`. -/
def projected_prob (vmin vmax : ℚ) (n : ℕ) (r gd : ℚ) (p : List ℚ) (i : ℕ) : ℚ :=
  ∑ j ∈ Finset.range n, p.getD j 0 * proj_weight (atom_pos vmin vmax n r gd j) i

/-- Total mass of the projected target distribution. -/
def projected_mass (vmin vmax : ℚ) (n : ℕ) (r gd : ℚ) (p : List ℚ) : ℚ :=
  ∑ i ∈ Finset.range n, projected_prob vmin vmax n r gd p i

lemma proj_weight_sum (n : ℕ) (b : ℚ) (h0 : 0 ≤ b) (h1 : b ≤ (n : ℚ) - 1) :
    ∑ i ∈ Finset.range n, proj_weight b i = 1 := by
  obtain ⟨l, hl⟩ : ∃ l : ℕ, (⌊b⌋).toNat = l := ⟨_, rfl⟩
  have hfl : 0 ≤ ⌊b⌋ := Int.floor_nonneg.mpr h0
  have hlq : (l : ℚ) = (⌊b⌋ : ℚ) := by
    rw [← hl]
    exact_mod_cast congrArg (fun z : ℤ => (z : ℚ)) (Int.toNat_of_nonneg hfl)
  have hbl : (l : ℚ) ≤ b := by
    rw [hlq]
    exact Int.floor_le b
  have hln : l < n := by
    by_contra hc
    push_neg at hc
    have hcq : (n : ℚ) ≤ (l : ℚ) := by exact_mod_cast hc
    linarith
  have hsum : ∑ i ∈ Finset.range n, proj_weight b i
      = (∑ i ∈ Finset.range n, if i = l then 1 - (b - (l : ℚ)) else 0)
      + (∑ i ∈ Finset.range n, if i = l + 1 then b - (l : ℚ) else 0) := by
    rw [← Finset.sum_add_distrib]
    apply Finset.sum_congr rfl
    intro i _
    simp only [proj_weight, hl]
    by_cases h : i = l
    · subst h
      rw [if_pos rfl, if_pos rfl, if_neg (show i ≠ i + 1 by omega)]
      ring
    · rw [if_neg h, if_neg h]
      by_cases h2 : i = l + 1
      · rw [if_pos h2]
        ring
      · rw [if_neg h2]
        ring
  rw [hsum, Finset.sum_ite_eq' (Finset.range n) l (fun _ => 1 - (b - (l : ℚ))),
    Finset.sum_ite_eq' (Finset.range n) (l + 1) (fun _ => b - (l : ℚ)),
    if_pos (Finset.mem_range.mpr hln)]
  by_cases hl1 : l + 1 < n
  · rw [if_pos (Finset.mem_range.mpr hl1)]
    ring
  · rw [if_neg (fun hmem => hl1 (Finset.mem_range.mp hmem))]
    have hln1 : (n : ℚ) - 1 = (l : ℚ) := by
      have heq1 : l + 1 = n := by omega
      rw [← heq1]
      push_cast
      ring
    have hbeq : b = (l : ℚ) := le_antisymm (by rw [← hln1]; exact h1) hbl
    rw [hbeq]
    ring

lemma atom_pos_bounds (vmin vmax : ℚ) (n : ℕ) (r gd : ℚ) (j : ℕ)
    (hv : vmin < vmax) (hn : 2 ≤ n) :
    0 ≤ atom_pos vmin vmax n r gd j ∧ atom_pos vmin vmax n r gd j ≤ (n : ℚ) - 1 := by
  have hn1 : (1 : ℚ) ≤ (n : ℚ) - 1 := by
    have h2n : (2 : ℚ) ≤ (n : ℚ) := by exact_mod_cast hn
    linarith
  have hdelta : 0 < (vmax - vmin) / ((n : ℚ) - 1) :=
    div_pos (by linarith) (by linarith)
  unfold atom_pos clampQ
  constructor
  · apply div_nonneg _ hdelta.le
    have hle : vmin ≤ max vmin (min (r + gd * atom_support vmin vmax n j) vmax) :=
      le_max_left _ _
    linarith
  · rw [div_le_iff₀ hdelta]
    have hub : max vmin (min (r + gd * atom_support vmin vmax n j) vmax) ≤ vmax :=
      max_le hv.le (min_le_right _ _)
    have hmul : ((n : ℚ) - 1) * ((vmax - vmin) / ((n : ℚ) - 1)) = vmax - vmin := by
      field_simp
    rw [hmul]
    linarith

lemma list_sum_getD (p : List ℚ) :
    ∑ j ∈ Finset.range p.length, p.getD j 0 = p.sum := by
  induction p with
  | nil => simp
  | cons x p ih =>
    rw [List.length_cons, Finset.sum_range_succ', List.sum_cons]
    simp only [List.getD_cons_succ, List.getD_cons_zero]
    rw [ih, add_comm]

/-- Claim C8: for well-formed support bounds (`vmin < vmax`, at least two
atoms) and a bootstrap distribution summing to 1, the projected target
distribution of the categorical Bellman backup conserves probability mass:
its atom probabilities sum to exactly 1, the transformed support having been
clamped to `[vmin, vmax]` before mass distribution. -/
theorem c8_projection_mass_conservation (vmin vmax : ℚ) (n : ℕ) (r gd : ℚ)
    (p : List ℚ) (hv : vmin < vmax) (hn : 2 ≤ n) (hp : p.length = n)
    (hsum : p.sum = 1) : projected_mass vmin vmax n r gd p = 1 := by
  unfold projected_mass projected_prob
  rw [Finset.sum_comm]
  have hrow : ∀ j ∈ Finset.range n,
      ∑ i ∈ Finset.range n, p.getD j 0 * proj_weight (atom_pos vmin vmax n r gd j) i
        = p.getD j 0 := by
    intro j _
    rw [← Finset.mul_sum]
    obtain ⟨hb0, hb1⟩ := atom_pos_bounds vmin vmax n r gd j hv hn
    rw [proj_weight_sum n _ hb0 hb1, mul_one]
  rw [Finset.sum_congr rfl hrow, ← hp, list_sum_getD p, hsum]

/-- Claim C8, witness: three atoms on `[-1, 1]`, bootstrap distribution
`[1/2, 1/4, 1/4]`, reward 2 (forcing clamping at the upper bound) and
discount 1/2; the projected mass is 1. -/
theorem c8_projection_mass_conservation_witness :
    projected_mass (-1) 1 3 2 (1 / 2) [1 / 2, 1 / 4, 1 / 4] = 1 :=
  c8_projection_mass_conservation (-1) 1 3 2 (1 / 2) [1 / 2, 1 / 4, 1 / 4]
    (by norm_num) (by norm_num) rfl
    (by norm_num [List.sum_cons, List.sum_nil])

/-- The collections returned by `make_default_MAD3PGNetworks` (networks.py
lines 30-66).  Network objects are identified by allocation ids: distinct
constructions get distinct ids, and an id occurring twice denotes the same
Python object (shared parameters). -/
structure MAD3PGNetworks where
  policy_networks : List ℕ
  critic_networks : List ℕ
  observation_networks : List ℕ
deriving DecidableEq

/-- `make_default_MAD3PGNetworks` (networks.py lines 30-66): a single
observation network, a single policy network and a single critic network are
constructed (allocation ids 0, 1 and 2), and each list comprehension
`[network for _ in range(edge_number)]` repeats that one object
`edge_number` times. -/
def make_default_MAD3PGNetworks (edge_number : ℕ) : MAD3PGNetworks :=
  let observation_network : ℕ := 0
  let policy_network : ℕ := 1
  let critic_network : ℕ := 2
  { policy_networks := (List.range edge_number).map (fun _ => policy_network)
    critic_networks := (List.range edge_number).map (fun _ => critic_network)
    observation_networks := (List.range edge_number).map (fun _ => observation_network) }

/-- Claim C10: for every `edge_number`, the three lists returned by
`make_default_MAD3PGNetworks` have `edge_number` entries each, and within
each list all entries are the same single network object, so all agents share
one set of policy parameters, one set of critic parameters and one
observation network. -/
theorem c10_shared_networks_across_agents (n : ℕ) :
    ((make_default_MAD3PGNetworks n).policy_networks.length = n
      ∧ (make_default_MAD3PGNetworks n).critic_networks.length = n
      ∧ (make_default_MAD3PGNetworks n).observation_networks.length = n)
  ∧ (∀ i j : ℕ, i < n → j < n →
      (make_default_MAD3PGNetworks n).policy_networks[i]? =
        (make_default_MAD3PGNetworks n).policy_networks[j]?
      ∧ (make_default_MAD3PGNetworks n).critic_networks[i]? =
        (make_default_MAD3PGNetworks n).critic_networks[j]?
      ∧ (make_default_MAD3PGNetworks n).observation_networks[i]? =
        (make_default_MAD3PGNetworks n).observation_networks[j]?) := by
  have hmap : ∀ (c i : ℕ), i < n → ((List.range n).map (fun _ => c))[i]? = some c := by
    intro c i hi
    rw [List.getElem?_map, List.getElem?_range hi]
    rfl
  refine ⟨⟨by simp [make_default_MAD3PGNetworks], by simp [make_default_MAD3PGNetworks],
    by simp [make_default_MAD3PGNetworks]⟩, fun i j hi hj => ?_⟩
  simp only [make_default_MAD3PGNetworks]
  exact ⟨by rw [hmap 1 i hi, hmap 1 j hj], by rw [hmap 2 i hi, hmap 2 j hj],
    by rw [hmap 0 i hi, hmap 0 j hj]⟩

/-- Claim C10, witness at the source's default `edge_number = 9`: agents 0
and 8 hold the same policy network object. -/
theorem c10_shared_networks_across_agents_witness :
    (make_default_MAD3PGNetworks 9).policy_networks[0]? =
      (make_default_MAD3PGNetworks 9).policy_networks[8]?
  ∧ (make_default_MAD3PGNetworks 9).policy_networks.length = 9 := by
  obtain ⟨⟨hlen, _, _⟩, h⟩ := c10_shared_networks_across_agents 9
  exact ⟨(h 0 8 (by norm_num) (by norm_num)).1, hlen⟩
